import Mathlib

/-!
Verification of the spectral-audio transform core of `torchaudio-contrib`
(`torchaudio_contrib/functional.py` and `torchaudio_contrib/layers.py`)
against its natural-language specification.

The Python functions are shallowly embedded: tensors are modelled as
functions from index tuples to real numbers (a `ℝ × ℝ` pair for the
trailing (real, imaginary) axis of complex spectrograms), machine floats
as real numbers, the stretch rate and synthetic time indices of the phase
vocoder as rationals (so that index arithmetic stays decidable), and
shape-level bookkeeping as explicit `List ℕ` shapes and frame counts.
Fallible Python code (raised exceptions) is embedded with `Except`/`Option`.
-/

open Real

namespace TorchaudioContrib

/-! ### Shape-level embedding of `functional.stft` (functional.py lines 49-101)

`stft` flattens leading dimensions, optionally pads the time axis, calls
`torch.stft(..., center=False)` and restores the leading dimensions.  The
claims about it are shape claims, so the embedding tracks shapes: a tensor
is represented by its shape `List ℕ`.  `torch.stft` on a `(batch, T)` real
input with `center=False` returns shape `(batch, fft_len/2 + 1,
(T - fft_len)/hop_len + 1, 2)` and requires `0 < hop_len`,
`0 < fft_len ≤ T` and `0 < win_length ≤ fft_len`. -/

/-- Shape of the local variable `complex_specgrams` at the end of the body of
`functional.stft` (the value the docstring says is returned): `none` models a
raised exception for argument combinations `torch.stft` rejects. -/
def stft_local_shape (shape : List ℕ) (fft_len hop_len win_len pad : ℕ) :
    Option (List ℕ) :=
  if shape.length < 2 then none
  else
    -- `add_batch_dim`: a rank-2 input is reshaped to `(1,) + shape`
    let s1 := if shape.length = 2 then 1 :: shape else shape
    -- `F.pad(waveforms, (pad, pad), pad_mode)` pads the time axis by `pad` on each side
    let T := s1.getLastD 0 + 2 * pad
    let lead := s1.dropLast
    if 0 < fft_len ∧ fft_len ≤ T ∧ 0 < hop_len ∧ 0 < win_len ∧ win_len ≤ fft_len then
      -- `torch.stft(·, center=False)` then `reshape(leading_dims + ...)`
      let out := lead ++ [fft_len / 2 + 1, (T - fft_len) / hop_len + 1, 2]
      -- `if add_batch_dim: reshape(complex_specgrams.shape[1:])`
      some (if shape.length = 2 then out.drop 1 else out)
    else none

/-- Return value of `functional.stft`.  The Python function body (lines
80-101) computes `complex_specgrams` but contains no `return` statement, so
the function returns `None` (`Except.ok Option.none`) whenever the
computation succeeds, and propagates the exception otherwise. -/
def stft (shape : List ℕ) (fft_len hop_len win_len pad : ℕ) :
    Except String (Option (List ℕ)) :=
  match stft_local_shape shape fft_len hop_len win_len pad with
  | some _ => Except.ok Option.none
  | none => Except.error "invalid stft arguments"

/-! ### Embedding of `STFT._stft_defaults` (layers.py lines 71-83) -/

/-- Possible Python values passed as the `window` argument of `STFT`:
`noneArg` is Python `None`, `tensorArg s` a `torch.Tensor` of shape `s`
(only the shape matters to the validation), and `otherArg` any value that is
not a `torch.Tensor`. -/
inductive PyWindow
  | noneArg
  | tensorArg (shape : List ℕ)
  | otherArg
  deriving DecidableEq

/-- Embedding of `STFT._stft_defaults`: resolves the `hop_len` default
(`fft_len // 4`), builds a default Hann window of length `frame_len`
(defaulting to `fft_len`) when `window is None`, and raises `TypeError` when
the window is not a `torch.Tensor`.  Returns `(fft_len, hop_len, window shape)`. -/
def stft_defaults (fft_len : ℕ) (hop_len frame_len : Option ℕ)
    (window : PyWindow) : Except String (ℕ × ℕ × List ℕ) :=
  let hop := match hop_len with
    | Option.none => fft_len / 4
    | Option.some h => h
  let w := match window with
    | PyWindow.noneArg =>
        PyWindow.tensorArg [match frame_len with
          | Option.none => fft_len
          | Option.some l => l]
    | x => x
  match w with
  | PyWindow.tensorArg s => Except.ok (fft_len, hop, s)
  | _ => Except.error "window must be a of type torch.Tensor"

/-! ### Frame count of `functional.phase_vocoder` (functional.py lines 222-264)

`phase_vocoder` builds `time_steps = torch.arange(0, spect.size(3), rate)`;
every per-frame tensor in the body (the gathers `spect_0`/`spect_1`, the
angles, norms, `alphas`, `mag`, the concatenated/accumulated phases and the
final `stack`) is indexed by this arange along the time axis, so the output
tensor has exactly `len(torch.arange(0, num_frames, rate))` frames. -/

/-- Synthetic time index of output frame `k`: the `k`-th element of
`torch.arange(0, num_frames, rate)`, i.e. `k * rate`. -/
def timeStep (rate : ℚ) (k : ℕ) : ℚ := k * rate

/-- Number of elements of `torch.arange(0, limit, step)` for `0 < step`:
`⌈limit / step⌉`. -/
def arangeLen (limit step : ℚ) : ℕ := (Int.ceil (limit / step)).toNat

/-- Number of output frames of `phase_vocoder` on an input with `num_frames`
frames along the time axis: the length of `time_steps`. -/
def pvNumFrames (num_frames : ℕ) (rate : ℚ) : ℕ := arangeLen num_frames rate

/-! ### Theorems about the claims settled so far -/

/-- C1: the framing operation `stft` is claimed to return a complex
spectrogram of shape `(C, fft_len/2+1, num_frames, 2)` for a rank-2 input
`(C, T)`.  The code computes a tensor of exactly that shape in its local
variable, but the function body has no `return` statement, so it actually
returns Python `None`: here, at the concrete input `shape (2, 8)`,
`fft_len = 4`, `hop_len = 2`, a length-4 window and `pad = 0`, the local
spectrogram has the claimed shape `(2, 4/2+1, (8-4)/2+1, 2) = (2, 3, 3, 2)`
yet the call evaluates to `None`. -/
theorem stft_computes_shape_but_returns_none :
    stft [2, 8] 4 2 4 0 = Except.ok Option.none ∧
      stft_local_shape [2, 8] 4 2 4 0 = some [2, 3, 3, 2] := by
  constructor <;> rfl

/-- C8 (counterexample): a window that is a genuine `torch.Tensor` but has
rank 2 (shape `[3, 3]`), or rank 1 with zero length (shape `[0]`), is *not*
rejected by `STFT._stft_defaults`: validation succeeds, contradicting the
claim that any window that is not a 1-D numeric array of positive length is
rejected before transform work begins. -/
theorem stft_defaults_accepts_bad_window :
    stft_defaults 2048 Option.none Option.none (PyWindow.tensorArg [3, 3]) =
        Except.ok (2048, 512, [3, 3]) ∧
      stft_defaults 2048 Option.none Option.none (PyWindow.tensorArg [0]) =
        Except.ok (2048, 512, [0]) := by
  constructor <;> rfl

/-- C8 (amended): `STFT._stft_defaults` raises an error if and only if the
supplied window is neither `None` nor a `torch.Tensor`; the wrong-type case
is rejected at configuration time, before any transform work, but the rank
and length of a tensor window are not validated. -/
theorem stft_defaults_reject_iff (fft_len : ℕ) (hop_len frame_len : Option ℕ)
    (w : PyWindow) :
    (∃ e, stft_defaults fft_len hop_len frame_len w = Except.error e) ↔
      w = PyWindow.otherArg := by
  cases w <;> simp [stft_defaults]

/-- C2 (counterexample): on an input with `num_frames = 5` and
`rate = 3/2`, `phase_vocoder` produces `⌈5/(3/2)⌉ = 4` output frames (the
synthetic indices are `0, 3/2, 3, 9/2`, all `< 5`), while the claimed
formula `⌊(num_frames - 1)/rate⌋ + 1` gives `3`. -/
theorem pv_num_frames_ne_claimed_formula :
    pvNumFrames 5 (3 / 2) = 4 ∧
      (⌊((5 : ℚ) - 1) / (3 / 2)⌋ + 1 : ℤ) = 3 ∧
      (pvNumFrames 5 (3 / 2) : ℤ) ≠ ⌊((5 : ℚ) - 1) / (3 / 2)⌋ + 1 := by
  have hceil : (⌈((5 : ℕ) : ℚ) / (3 / 2)⌉ : ℤ) = 4 := by
    rw [Int.ceil_eq_iff]
    constructor <;> norm_num
  have hfloor : (⌊((5 : ℚ) - 1) / (3 / 2)⌋ : ℤ) = 2 := by
    rw [Int.floor_eq_iff]
    constructor <;> norm_num
  have hpv : pvNumFrames 5 (3 / 2) = 4 := by
    unfold pvNumFrames arangeLen
    rw [hceil]
    rfl
  refine ⟨hpv, by rw [hfloor]; decide, ?_⟩
  rw [hpv, hfloor]
  decide

/-- C2 (amended): for every input with `num_frames ≥ 1` frames and every
rate `> 0`, the output of `phase_vocoder` has exactly
`⌈num_frames / rate⌉` frames, and this is precisely the number of synthetic
time indices `t = 0, rate, 2·rate, ...` with `t < num_frames`: output frame
`k` exists iff `k · rate < num_frames`.  (The claimed formula
`⌊(num_frames - 1)/rate⌋ + 1` agrees with this count for integer rates but
not in general.) -/
theorem pv_num_frames_eq_ceil (num_frames : ℕ) (rate : ℚ)
    (hN : 1 ≤ num_frames) (hrate : 0 < rate) :
    (pvNumFrames num_frames rate : ℤ) = ⌈(num_frames : ℚ) / rate⌉ ∧
      ∀ k : ℕ, k < pvNumFrames num_frames rate ↔
        timeStep rate k < num_frames := by
  have hpos : 0 < ((num_frames : ℚ) / rate) := by
    apply div_pos _ hrate
    exact_mod_cast Nat.lt_of_lt_of_le Nat.zero_lt_one hN
  have hceil : 0 < ⌈(num_frames : ℚ) / rate⌉ := Int.ceil_pos.mpr hpos
  have hcast : (pvNumFrames num_frames rate : ℤ) = ⌈(num_frames : ℚ) / rate⌉ :=
    Int.toNat_of_nonneg (le_of_lt hceil)
  refine ⟨hcast, fun k => ?_⟩
  have h1 : (k : ℤ) < (pvNumFrames num_frames rate : ℤ) ↔
      (k : ℤ) < ⌈(num_frames : ℚ) / rate⌉ := by rw [hcast]
  have h2 : (k : ℤ) < ⌈(num_frames : ℚ) / rate⌉ ↔
      ((k : ℤ) : ℚ) < (num_frames : ℚ) / rate := Int.lt_ceil
  have h3 : ((k : ℤ) : ℚ) < (num_frames : ℚ) / rate ↔
      (k : ℚ) * rate < (num_frames : ℚ) := by
    rw [lt_div_iff₀ hrate]
    norm_cast
  constructor
  · intro hk
    have : (k : ℤ) < (pvNumFrames num_frames rate : ℤ) := by exact_mod_cast hk
    exact (h3.mp (h2.mp (h1.mp this)))
  · intro hk
    have : (k : ℤ) < (pvNumFrames num_frames rate : ℤ) :=
      h1.mpr (h2.mpr (h3.mpr hk))
    exact_mod_cast this

/-- Witness for the amended C2: at `num_frames = 5`, `rate = 3/2` the
hypotheses hold and the theorem yields the ceiling frame count. -/
theorem pv_num_frames_eq_ceil_witness :
    1 ≤ 5 ∧ (0 : ℚ) < 3 / 2 ∧
      (pvNumFrames 5 (3 / 2) : ℤ) = ⌈((5 : ℕ) : ℚ) / (3 / 2)⌉ :=
  ⟨by decide, by norm_num, (pv_num_frames_eq_ceil 5 (3 / 2) (by decide) (by norm_num)).1⟩

/-! ### Embedding of the mel frequency scale (functional.py lines 6-46)

`_hertz_to_mel` / `_mel_to_hertz` are elementwise over tensors; floats are
modelled as real numbers, `torch.log10` as `Real.logb 10`, `10 ** x` as the
real power, `torch.where(c, a, b)` on a scalar as `if c then a else b`. -/

/-- Embedding of `functional._hertz_to_mel`: HTK formula
`2595 * log10(1 + hz/700)` when `htk`, otherwise the Slaney piecewise
linear/log scale. -/
noncomputable def hertz_to_mel (hz : ℝ) (htk : Bool) : ℝ :=
  if htk then 2595 * Real.logb 10 (1 + hz / 700)
  else
    let f_min : ℝ := 0
    let f_sp : ℝ := 200 / 3
    let mel := (hz - f_min) / f_sp
    let min_log_hz : ℝ := 1000
    let min_log_mel := (min_log_hz - f_min) / f_sp
    let logstep := Real.log 6.4 / 27
    if min_log_hz ≤ hz then min_log_mel + Real.log (hz / min_log_hz) / logstep
    else mel

/-- Embedding of `functional._mel_to_hertz`: HTK formula
`700 * (10 ** (mel/2595) - 1)` when `htk`, otherwise the inverse Slaney
piecewise linear/log scale. -/
noncomputable def mel_to_hertz (mel : ℝ) (htk : Bool) : ℝ :=
  if htk then 700 * ((10 : ℝ) ^ (mel / 2595) - 1)
  else
    let f_min : ℝ := 0
    let f_sp : ℝ := 200 / 3
    let hz := f_min + f_sp * mel
    let min_log_hz : ℝ := 1000
    let min_log_mel := (min_log_hz - f_min) / f_sp
    let logstep := Real.log 6.4 / 27
    if min_log_mel ≤ mel then min_log_hz * Real.exp (logstep * (mel - min_log_mel))
    else hz

lemma hertz_to_mel_true (hz : ℝ) :
    hertz_to_mel hz true = 2595 * Real.logb 10 (1 + hz / 700) := by
  simp [hertz_to_mel]

lemma mel_to_hertz_true (mel : ℝ) :
    mel_to_hertz mel true = 700 * ((10 : ℝ) ^ (mel / 2595) - 1) := by
  simp [mel_to_hertz]

lemma hertz_to_mel_false (hz : ℝ) :
    hertz_to_mel hz false =
      if 1000 ≤ hz then 15 + Real.log (hz / 1000) / (Real.log 6.4 / 27)
      else hz / (200 / 3) := by
  simp only [hertz_to_mel, Bool.false_eq_true, if_false]
  norm_num

lemma mel_to_hertz_false (mel : ℝ) :
    mel_to_hertz mel false =
      if 15 ≤ mel then 1000 * Real.exp (Real.log 6.4 / 27 * (mel - 15))
      else 200 / 3 * mel := by
  simp only [mel_to_hertz, Bool.false_eq_true, if_false]
  norm_num

/-- C5: on every non-negative frequency and for both scale formulas,
`_mel_to_hertz` exactly inverts `_hertz_to_mel` (in the real-number model of
the floating-point computation). -/
theorem mel_to_hertz_hertz_to_mel (hz : ℝ) (hhz : 0 ≤ hz) (htk : Bool) :
    mel_to_hertz (hertz_to_mel hz htk) htk = hz := by
  cases htk with
  | true =>
    rw [hertz_to_mel_true, mel_to_hertz_true]
    have h700 : (0 : ℝ) < 1 + hz / 700 := by
      have := div_nonneg hhz (by norm_num : (0 : ℝ) ≤ 700)
      linarith
    rw [mul_comm (2595 : ℝ), mul_div_assoc, div_self (by norm_num : (2595 : ℝ) ≠ 0),
      mul_one, Real.rpow_logb (by norm_num) (by norm_num) h700]
    ring
  | false =>
    rw [hertz_to_mel_false]
    by_cases hbig : (1000 : ℝ) ≤ hz
    · rw [if_pos hbig, mel_to_hertz_false]
      have hc : (0 : ℝ) < Real.log 6.4 / 27 :=
        div_pos (Real.log_pos (by norm_num)) (by norm_num)
      have hlogn : (0 : ℝ) ≤ Real.log (hz / 1000) :=
        Real.log_nonneg (by rw [le_div_iff₀ (by norm_num : (0 : ℝ) < 1000)]; linarith)
      have hsel : (15 : ℝ) ≤ 15 + Real.log (hz / 1000) / (Real.log 6.4 / 27) := by
        have := div_nonneg hlogn hc.le
        linarith
      rw [if_pos hsel]
      have harg : Real.log 6.4 / 27 *
          (15 + Real.log (hz / 1000) / (Real.log 6.4 / 27) - 15) =
            Real.log (hz / 1000) := by
        field_simp
        ring
      rw [harg, Real.exp_log (div_pos (by linarith) (by norm_num))]
      field_simp
    · rw [if_neg hbig, mel_to_hertz_false]
      push_neg at hbig
      have hsel : ¬ (15 : ℝ) ≤ hz / (200 / 3) := by
        rw [not_le, div_lt_iff₀ (by norm_num : (0 : ℝ) < 200 / 3)]
        linarith
      rw [if_neg hsel]
      field_simp
      ring

/-- Witness for C5 at the concrete frequency 1400 Hz (above the Slaney
1000 Hz breakpoint), for both formulas. -/
theorem mel_to_hertz_hertz_to_mel_witness :
    (0 : ℝ) ≤ 1400 ∧ mel_to_hertz (hertz_to_mel 1400 true) true = 1400 ∧
      mel_to_hertz (hertz_to_mel 1400 false) false = 1400 :=
  ⟨by norm_num, mel_to_hertz_hertz_to_mel 1400 (by norm_num) true,
    mel_to_hertz_hertz_to_mel 1400 (by norm_num) false⟩

/-! ### linspace and the phase-advance table (layers.py lines 242-249) -/

/-- Element `i` of `torch.linspace(a, b, steps)`: `steps` evenly spaced
points from `a` to `b` inclusive, i.e. `a + i * (b - a)/(steps - 1)`;
`torch.linspace(a, b, 1)` is the one-point tensor `[a]`. -/
noncomputable def linspace (a b : ℝ) (steps : ℕ) (i : ℕ) : ℝ :=
  if steps = 1 then a else a + i * (b - a) / ((steps : ℝ) - 1)

/-- Embedding of the phase-advance table built in
`StretchSpecTime.__init__`: `torch.linspace(0, math.pi * hop_len,
num_bins)[..., None]`.  The trailing `[..., None]` only reshapes
`(num_bins,)` to `(num_bins, 1)`, so the table is modelled by its entries
`phi_advance hop_len num_bins k` for `k < num_bins`. -/
noncomputable def phi_advance (hop_len num_bins : ℕ) (k : ℕ) : ℝ :=
  linspace 0 (π * hop_len) num_bins k

/-- C4 (counterexample): for `hop_len = 1`, `num_bins = 2` the table entry
at bin index 1 is `linspace(0, π, 2)[1] = π`, while the claimed per-bin
formula `π * hop_len * k / num_bins` gives `π/2 ≠ π`. -/
theorem phi_advance_ne_claimed_formula :
    phi_advance 1 2 1 = π ∧ π ≠ π * 1 * 1 / 2 := by
  constructor
  · simp only [phi_advance, linspace]
    norm_num
  · intro h
    nlinarith [Real.pi_pos]

/-- C4 (amended): for every configuration with `num_bins ≥ 2`, the
phase-advance table equals `linspace(0, π * hop_len, num_bins)` (reshaped to
`(num_bins, 1)`), whose entry at bin index `k` is
`π * hop_len * k / (num_bins - 1)` — not `π * hop_len * k / num_bins`. -/
theorem phi_advance_formula (hop_len num_bins k : ℕ) (h2 : 2 ≤ num_bins) :
    phi_advance hop_len num_bins k =
      π * hop_len * k / ((num_bins : ℝ) - 1) := by
  have hne : num_bins ≠ 1 := by omega
  simp only [phi_advance, linspace, hne, if_false]
  ring

/-- Witness for the amended C4 at `hop_len = 1`, `num_bins = 2`, `k = 1`. -/
theorem phi_advance_formula_witness :
    2 ≤ 2 ∧ phi_advance 1 2 1 = π * (1 : ℕ) * (1 : ℕ) / (((2 : ℕ) : ℝ) - 1) :=
  ⟨le_refl 2, phi_advance_formula 1 2 1 (le_refl 2)⟩

/-! ### Embedding of `functional.apply_filterbank` (functional.py lines 177-188)

A magnitude spectrogram `(batch, channel, num_freqs, time)` is modelled as a
function `Fin batch → Fin channel → Fin num_freqs → Fin time → ℝ` and the
filterbank matrix as `Fin num_freqs → Fin num_bands → ℝ`. -/

/-- `x.transpose(-2, -1)`: swap the last two axes. -/
def transpose_last {α : Type} {B C P Q : ℕ}
    (x : Fin B → Fin C → Fin P → Fin Q → α) :
    Fin B → Fin C → Fin Q → Fin P → α :=
  fun b c q p => x b c p q

/-- Batched `torch.matmul` against a matrix: contract the last axis of `x`
with the first axis of `m`. -/
noncomputable def matmul_last {B C T NF NB : ℕ}
    (x : Fin B → Fin C → Fin T → Fin NF → ℝ) (m : Fin NF → Fin NB → ℝ) :
    Fin B → Fin C → Fin T → Fin NB → ℝ :=
  fun b c t g => ∑ f, x b c t f * m f g

/-- Embedding of `functional.apply_filterbank`:
`torch.matmul(mag_specgrams.transpose(-2, -1), filterbank).transpose(-2, -1)`. -/
noncomputable def apply_filterbank {B C NF T NB : ℕ}
    (mag_specgrams : Fin B → Fin C → Fin NF → Fin T → ℝ)
    (filterbank : Fin NF → Fin NB → ℝ) :
    Fin B → Fin C → Fin NB → Fin T → ℝ :=
  transpose_last (matmul_last (transpose_last mag_specgrams) filterbank)

/-- The `num_freqs × num_freqs` identity matrix used as a filterbank. -/
def idFilterbank (n : ℕ) : Fin n → Fin n → ℝ :=
  fun f g => if f = g then 1 else 0

/-- C7: applying the identity filterbank through `apply_filterbank` returns
the input magnitude spectrogram unchanged, with the batch, channel,
frequency and time axes all preserved. -/
theorem apply_filterbank_id {B C NF T : ℕ}
    (mag_specgrams : Fin B → Fin C → Fin NF → Fin T → ℝ) :
    apply_filterbank mag_specgrams (idFilterbank NF) = mag_specgrams := by
  funext b c f t
  simp [apply_filterbank, matmul_last, transpose_last, idFilterbank,
    mul_ite, mul_one, mul_zero]

/-! ### Embedding of `functional.create_mel_filter` (functional.py lines 139-174)

`create_mel_filter` builds the `(num_freqs, num_mels)` triangular filterbank
matrix; the embedding gives each intermediate tensor of the Python body as an
indexed family of reals. -/

/-- `stft_freqs = torch.linspace(min_freq, max_freq, num_freqs)`. -/
noncomputable def stft_freqs (num_freqs : ℕ) (min_freq max_freq : ℝ) (i : ℕ) : ℝ :=
  linspace min_freq max_freq num_freqs i

/-- `m_pts = torch.linspace(m_min, m_max, num_mels + 2)` with
`m_min = _hertz_to_mel(min_freq)`, `m_max = _hertz_to_mel(max_freq)`. -/
noncomputable def m_pts (num_mels : ℕ) (min_freq max_freq : ℝ) (htk : Bool) (j : ℕ) : ℝ :=
  linspace (hertz_to_mel min_freq htk) (hertz_to_mel max_freq htk) (num_mels + 2) j

/-- `f_pts = _mel_to_hertz(m_pts)`: the `num_mels + 2` triangular-filter
boundary frequencies. -/
noncomputable def f_pts (num_mels : ℕ) (min_freq max_freq : ℝ) (htk : Bool) (j : ℕ) : ℝ :=
  mel_to_hertz (m_pts num_mels min_freq max_freq htk j) htk

/-- `f_diff = f_pts[1:] - f_pts[:-1]`. -/
noncomputable def f_diff (num_mels : ℕ) (min_freq max_freq : ℝ) (htk : Bool) (j : ℕ) : ℝ :=
  f_pts num_mels min_freq max_freq htk (j + 1) - f_pts num_mels min_freq max_freq htk j

/-- Element `(i, j)` of `down_slopes = (-1. * slopes[:, :-2]) / f_diff[:-1]`
where `slopes[i, j] = f_pts[j] - stft_freqs[i]`. -/
noncomputable def down_slopes (num_freqs num_mels : ℕ) (min_freq max_freq : ℝ)
    (htk : Bool) (i j : ℕ) : ℝ :=
  -1 * (f_pts num_mels min_freq max_freq htk j - stft_freqs num_freqs min_freq max_freq i) /
    f_diff num_mels min_freq max_freq htk j

/-- Element `(i, j)` of `up_slopes = slopes[:, 2:] / f_diff[1:]`. -/
noncomputable def up_slopes (num_freqs num_mels : ℕ) (min_freq max_freq : ℝ)
    (htk : Bool) (i j : ℕ) : ℝ :=
  (f_pts num_mels min_freq max_freq htk (j + 2) - stft_freqs num_freqs min_freq max_freq i) /
    f_diff num_mels min_freq max_freq htk (j + 1)

/-- Element `(i, j)` of the matrix returned by `functional.create_mel_filter`:
`torch.clamp(torch.min(down_slopes, up_slopes), min=0.)`. -/
noncomputable def create_mel_filter (num_freqs num_mels : ℕ) (min_freq max_freq : ℝ)
    (htk : Bool) (i j : ℕ) : ℝ :=
  max (min (down_slopes num_freqs num_mels min_freq max_freq htk i j)
        (up_slopes num_freqs num_mels min_freq max_freq htk i j)) 0

/-- The triangular response of filter `j` as a function of linear frequency
`x`; by construction, entry `(i, j)` of the filterbank is this function
evaluated at the `i`-th frequency sample (`mel_triangle_at_sample`). -/
noncomputable def mel_triangle (num_mels : ℕ) (min_freq max_freq : ℝ) (htk : Bool)
    (j : ℕ) (x : ℝ) : ℝ :=
  max (min (-1 * (f_pts num_mels min_freq max_freq htk j - x) /
        f_diff num_mels min_freq max_freq htk j)
      ((f_pts num_mels min_freq max_freq htk (j + 2) - x) /
        f_diff num_mels min_freq max_freq htk (j + 1))) 0

lemma mel_triangle_at_sample (num_freqs num_mels : ℕ) (min_freq max_freq : ℝ)
    (htk : Bool) (i j : ℕ) :
    create_mel_filter num_freqs num_mels min_freq max_freq htk i j =
      mel_triangle num_mels min_freq max_freq htk j
        (stft_freqs num_freqs min_freq max_freq i) := rfl

/-! Strict monotonicity of the two frequency scales, used to show the
boundary frequencies `f_pts` are strictly increasing. -/

lemma mel_to_hertz_lt {a b : ℝ} (htk : Bool) (hab : a < b) :
    mel_to_hertz a htk < mel_to_hertz b htk := by
  cases htk with
  | true =>
    rw [mel_to_hertz_true, mel_to_hertz_true]
    have h10 : (10 : ℝ) ^ (a / 2595) < (10 : ℝ) ^ (b / 2595) :=
      (Real.rpow_lt_rpow_left_iff (by norm_num)).mpr (by linarith)
    linarith
  | false =>
    rw [mel_to_hertz_false, mel_to_hertz_false]
    have hc : (0 : ℝ) < Real.log 6.4 / 27 :=
      div_pos (Real.log_pos (by norm_num)) (by norm_num)
    rcases le_or_lt 15 a with h15a | h15a
    · rw [if_pos h15a, if_pos (le_trans h15a hab.le)]
      have hexp := Real.exp_lt_exp.mpr
        (show Real.log 6.4 / 27 * (a - 15) < Real.log 6.4 / 27 * (b - 15) by nlinarith)
      linarith
    · rw [if_neg (not_le.mpr h15a)]
      rcases le_or_lt 15 b with h15b | h15b
      · rw [if_pos h15b]
        have h1 : (200 : ℝ) / 3 * a < 1000 := by nlinarith
        have h2 : (1 : ℝ) ≤ Real.exp (Real.log 6.4 / 27 * (b - 15)) :=
          Real.one_le_exp (mul_nonneg hc.le (by linarith))
        nlinarith
      · rw [if_neg (not_le.mpr h15b)]
        nlinarith

lemma hertz_to_mel_lt {a b : ℝ} (htk : Bool) (ha : 0 ≤ a) (hab : a < b) :
    hertz_to_mel a htk < hertz_to_mel b htk := by
  cases htk with
  | true =>
    rw [hertz_to_mel_true, hertz_to_mel_true]
    have hx : (0 : ℝ) < 1 + a / 700 := by
      have := div_nonneg ha (by norm_num : (0 : ℝ) ≤ 700)
      linarith
    have hxy : 1 + a / 700 < 1 + b / 700 := by
      have : a / 700 < b / 700 := (div_lt_div_iff_of_pos_right (by norm_num)).mpr hab
      linarith
    have := Real.logb_lt_logb (b := 10) (by norm_num) hx hxy
    linarith
  | false =>
    rw [hertz_to_mel_false, hertz_to_mel_false]
    have hc : (0 : ℝ) < Real.log 6.4 / 27 :=
      div_pos (Real.log_pos (by norm_num)) (by norm_num)
    rcases le_or_lt 1000 a with hka | hka
    · rw [if_pos hka, if_pos (le_trans hka hab.le)]
      have hlog : Real.log (a / 1000) < Real.log (b / 1000) :=
        Real.log_lt_log (div_pos (by linarith) (by norm_num))
          ((div_lt_div_iff_of_pos_right (by norm_num)).mpr hab)
      have := (div_lt_div_iff_of_pos_right hc).mpr hlog
      linarith
    · rw [if_neg (not_le.mpr hka)]
      rcases le_or_lt 1000 b with hkb | hkb
      · rw [if_pos hkb]
        have h1 : a / (200 / 3) < 15 := by
          rw [div_lt_iff₀ (by norm_num : (0 : ℝ) < 200 / 3)]
          linarith
        have h2 : (0 : ℝ) ≤ Real.log (b / 1000) :=
          Real.log_nonneg (by rw [le_div_iff₀ (by norm_num : (0 : ℝ) < 1000)]; linarith)
        have h3 : (0 : ℝ) ≤ Real.log (b / 1000) / (Real.log 6.4 / 27) :=
          div_nonneg h2 hc.le
        linarith
      · rw [if_neg (not_le.mpr hkb)]
        exact (div_lt_div_iff_of_pos_right (by norm_num)).mpr hab

lemma linspace_succ_lt {a b : ℝ} (steps : ℕ) (h2 : 2 ≤ steps) (hab : a < b) (j : ℕ) :
    linspace a b steps j < linspace a b steps (j + 1) := by
  have hne : steps ≠ 1 := by omega
  simp only [linspace, hne, if_false]
  have hden : (0 : ℝ) < (steps : ℝ) - 1 := by
    have : (2 : ℝ) ≤ (steps : ℝ) := by exact_mod_cast h2
    linarith
  have hD : 0 < (b - a) / ((steps : ℝ) - 1) := div_pos (by linarith) hden
  push_cast
  calc a + (j : ℝ) * (b - a) / ((steps : ℝ) - 1)
      = a + (j : ℝ) * ((b - a) / ((steps : ℝ) - 1)) := by ring
    _ < a + ((j : ℝ) + 1) * ((b - a) / ((steps : ℝ) - 1)) := by nlinarith [hD]
    _ = a + ((j : ℝ) + 1) * (b - a) / ((steps : ℝ) - 1) := by ring

lemma f_pts_lt (num_mels : ℕ) {min_freq max_freq : ℝ} (htk : Bool)
    (hmin : 0 ≤ min_freq) (hlt : min_freq < max_freq) (j : ℕ) :
    f_pts num_mels min_freq max_freq htk j <
      f_pts num_mels min_freq max_freq htk (j + 1) := by
  apply mel_to_hertz_lt htk
  exact linspace_succ_lt (num_mels + 2) (by omega) (hertz_to_mel_lt htk hmin hlt) j

lemma f_diff_pos (num_mels : ℕ) {min_freq max_freq : ℝ} (htk : Bool)
    (hmin : 0 ≤ min_freq) (hlt : min_freq < max_freq) (j : ℕ) :
    0 < f_diff num_mels min_freq max_freq htk j :=
  sub_pos.mpr (f_pts_lt num_mels htk hmin hlt j)

/-- C9: under the filterbank preconditions, every entry of the matrix
returned by `create_mel_filter` lies in the closed interval `[0, 1]`: the
clamp bounds it below by 0, and since at any sample frequency at least one
of the two ramps is at most 1 (the rising one left of the filter center, the
falling one right of it, both ramp denominators being positive), their
pointwise minimum is at most 1. -/
theorem create_mel_filter_entries_unit_interval
    (num_freqs num_mels : ℕ) (min_freq max_freq : ℝ) (htk : Bool)
    (hfreqs : 2 ≤ num_freqs) (hmels : 1 ≤ num_mels)
    (hmin : 0 ≤ min_freq) (hlt : min_freq < max_freq)
    (i j : ℕ) (hi : i < num_freqs) (hj : j < num_mels) :
    0 ≤ create_mel_filter num_freqs num_mels min_freq max_freq htk i j ∧
      create_mel_filter num_freqs num_mels min_freq max_freq htk i j ≤ 1 := by
  have hd0 : 0 < f_diff num_mels min_freq max_freq htk j :=
    f_diff_pos num_mels htk hmin hlt j
  have hd1 : 0 < f_diff num_mels min_freq max_freq htk (j + 1) :=
    f_diff_pos num_mels htk hmin hlt (j + 1)
  refine ⟨le_max_right _ _, ?_⟩
  unfold create_mel_filter
  apply max_le _ zero_le_one
  rcases le_or_lt (stft_freqs num_freqs min_freq max_freq i)
      (f_pts num_mels min_freq max_freq htk (j + 1)) with hx | hx
  · apply le_trans (min_le_left _ _)
    unfold down_slopes
    rw [div_le_one hd0]
    unfold f_diff
    linarith
  · apply le_trans (min_le_right _ _)
    unfold up_slopes
    rw [div_le_one hd1]
    unfold f_diff
    linarith

/-- Witness for C9 at `num_freqs = 2`, `num_mels = 1`, `min_freq = 0`,
`max_freq = 1000`, Slaney scale, entry `(0, 0)`. -/
theorem create_mel_filter_entries_unit_interval_witness :
    (2 ≤ 2 ∧ 1 ≤ 1 ∧ (0 : ℝ) ≤ 0 ∧ (0 : ℝ) < 1000 ∧ 0 < 2 ∧ 0 < 1) ∧
      0 ≤ create_mel_filter 2 1 0 1000 false 0 0 ∧
        create_mel_filter 2 1 0 1000 false 0 0 ≤ 1 :=
  ⟨⟨le_refl 2, le_refl 1, le_refl 0, by norm_num, Nat.zero_lt_two, Nat.zero_lt_one⟩,
    create_mel_filter_entries_unit_interval 2 1 0 1000 false (le_refl 2) (le_refl 1)
      (le_refl 0) (by norm_num) 0 0 Nat.zero_lt_two Nat.zero_lt_one⟩

/-- C3 (amended): under the filterbank preconditions, every column `j` of
`create_mel_filter` has non-negative entries, vanishes at every frequency
sample at or outside its two boundary frequencies `f_pts j` and
`f_pts (j+2)`, and its triangular response attains the value exactly 1 at
the column's center *frequency* `f_pts (j+1)`.  The center frequency need
not coincide with any of the `num_freqs` sample points, so the column's
entries can all be strictly below 1 (see
`create_mel_filter_no_unit_peak`). -/
theorem create_mel_filter_triangle_shape
    (num_freqs num_mels : ℕ) (min_freq max_freq : ℝ) (htk : Bool)
    (hfreqs : 2 ≤ num_freqs) (hmels : 1 ≤ num_mels)
    (hmin : 0 ≤ min_freq) (hlt : min_freq < max_freq)
    (j : ℕ) (hj : j < num_mels) :
    (∀ i, i < num_freqs →
        0 ≤ create_mel_filter num_freqs num_mels min_freq max_freq htk i j) ∧
      (∀ i, i < num_freqs →
        (stft_freqs num_freqs min_freq max_freq i ≤
            f_pts num_mels min_freq max_freq htk j ∨
          f_pts num_mels min_freq max_freq htk (j + 2) ≤
            stft_freqs num_freqs min_freq max_freq i) →
        create_mel_filter num_freqs num_mels min_freq max_freq htk i j = 0) ∧
      mel_triangle num_mels min_freq max_freq htk j
        (f_pts num_mels min_freq max_freq htk (j + 1)) = 1 := by
  have hd0 : 0 < f_diff num_mels min_freq max_freq htk j :=
    f_diff_pos num_mels htk hmin hlt j
  have hd1 : 0 < f_diff num_mels min_freq max_freq htk (j + 1) :=
    f_diff_pos num_mels htk hmin hlt (j + 1)
  refine ⟨fun i _ => le_max_right _ _, fun i _ hout => ?_, ?_⟩
  · unfold create_mel_filter
    apply max_eq_right
    rcases hout with hleft | hright
    · apply le_trans (min_le_left _ _)
      unfold down_slopes
      apply div_nonpos_of_nonpos_of_nonneg _ hd0.le
      linarith
    · apply le_trans (min_le_right _ _)
      unfold up_slopes
      apply div_nonpos_of_nonpos_of_nonneg _ hd1.le
      linarith
  · unfold mel_triangle
    have hdown : -1 * (f_pts num_mels min_freq max_freq htk j -
        f_pts num_mels min_freq max_freq htk (j + 1)) /
          f_diff num_mels min_freq max_freq htk j = 1 := by
      unfold f_diff
      rw [show -1 * (f_pts num_mels min_freq max_freq htk j -
          f_pts num_mels min_freq max_freq htk (j + 1)) =
            f_pts num_mels min_freq max_freq htk (j + 1) -
              f_pts num_mels min_freq max_freq htk j by ring]
      exact div_self (by unfold f_diff at hd0; linarith)
    have hup : (f_pts num_mels min_freq max_freq htk (j + 2) -
        f_pts num_mels min_freq max_freq htk (j + 1)) /
          f_diff num_mels min_freq max_freq htk (j + 1) = 1 := by
      unfold f_diff
      exact div_self (by unfold f_diff at hd1; linarith)
    rw [hdown, hup, min_self]
    exact max_eq_left zero_le_one

/-- Witness for the amended C3 at `num_freqs = 2`, `num_mels = 1`,
`min_freq = 0`, `max_freq = 1000`, Slaney scale, column 0. -/
theorem create_mel_filter_triangle_shape_witness :
    (2 ≤ 2 ∧ 1 ≤ 1 ∧ (0 : ℝ) ≤ 0 ∧ (0 : ℝ) < 1000 ∧ 0 < 1) ∧
      mel_triangle 1 0 1000 false 0 (f_pts 1 0 1000 false 1) = 1 :=
  ⟨⟨le_refl 2, le_refl 1, le_refl 0, by norm_num, Nat.zero_lt_one⟩,
    (create_mel_filter_triangle_shape 2 1 0 1000 false (le_refl 2) (le_refl 1)
      (le_refl 0) (by norm_num) 0 Nat.zero_lt_one).2.2⟩

/-! Concrete evaluation of the filterbank at `num_freqs = 2`, `num_mels = 1`,
`min_freq = 0`, `max_freq = 1000`, Slaney scale: the boundary frequencies are
`f_pts = (0, 500, 1000)` and the two frequency samples are `0` and `1000`,
both outside the open support `(0, 1000)`s interior peak, so both entries of
the single column are 0 and the column's maximum is not 1. -/

lemma hertz_to_mel_zero : hertz_to_mel 0 false = 0 := by
  rw [hertz_to_mel_false]
  norm_num

lemma hertz_to_mel_thousand : hertz_to_mel 1000 false = 15 := by
  rw [hertz_to_mel_false]
  norm_num

lemma cex_f_pts_zero : f_pts 1 0 1000 false 0 = 0 := by
  unfold f_pts m_pts
  rw [hertz_to_mel_zero, hertz_to_mel_thousand]
  have h : linspace 0 15 3 0 = 0 := by
    simp [linspace]
  rw [h, mel_to_hertz_false]
  norm_num

lemma cex_f_pts_one : f_pts 1 0 1000 false 1 = 500 := by
  unfold f_pts m_pts
  rw [hertz_to_mel_zero, hertz_to_mel_thousand]
  have h : linspace 0 15 3 1 = 15 / 2 := by
    simp [linspace]
    norm_num
  rw [h, mel_to_hertz_false]
  norm_num

lemma cex_f_pts_two : f_pts 1 0 1000 false 2 = 1000 := by
  unfold f_pts m_pts
  rw [hertz_to_mel_zero, hertz_to_mel_thousand]
  have h : linspace 0 15 3 2 = 15 := by
    simp [linspace]
    norm_num
  rw [h, mel_to_hertz_false]
  norm_num [Real.exp_zero]

/-- C3 (counterexample): at `num_freqs = 2`, `num_mels = 1`, `min_freq = 0`,
`max_freq = 1000`, Slaney scale, both entries of the single column of
`create_mel_filter` are 0 — the column's maximum is 0, not 1, because the
center frequency 500 Hz is not among the two frequency samples 0 and
1000 Hz.  This refutes the claim that every column attains a maximum value
of exactly 1 at its center sample. -/
theorem create_mel_filter_no_unit_peak :
    create_mel_filter 2 1 0 1000 false 0 0 = 0 ∧
      create_mel_filter 2 1 0 1000 false 1 0 = 0 ∧
      max (create_mel_filter 2 1 0 1000 false 0 0)
        (create_mel_filter 2 1 0 1000 false 1 0) ≠ 1 := by
  have hs0 : stft_freqs 2 0 1000 0 = 0 := by
    simp [stft_freqs, linspace]
  have hs1 : stft_freqs 2 0 1000 1 = 1000 := by
    simp only [stft_freqs, linspace]
    norm_num
  have h0 : create_mel_filter 2 1 0 1000 false 0 0 = 0 := by
    unfold create_mel_filter down_slopes up_slopes f_diff
    rw [hs0, cex_f_pts_zero, cex_f_pts_one, cex_f_pts_two]
    norm_num
  have h1 : create_mel_filter 2 1 0 1000 false 1 0 = 0 := by
    unfold create_mel_filter down_slopes up_slopes f_diff
    rw [hs1, cex_f_pts_zero, cex_f_pts_one, cex_f_pts_two]
    norm_num [min_def, max_def]
  refine ⟨h0, h1, ?_⟩
  rw [h0, h1]
  norm_num

/-! ### Value-level embedding of `functional.phase_vocoder` (lines 208-264)

A complex spectrogram `(batch, channel, num_bins, time, 2)` is modelled as a
function `Fin batch → Fin channel → Fin num_bins → ℕ → ℝ × ℝ` together with
its frame count `num_frames`; all operations of the body act elementwise
over `(batch, channel, bin)` and are therefore defined on a single time
series `x : ℕ → ℝ × ℝ` and lifted pointwise.  The synthetic time indices
are the rationals `timeStep rate k = k * rate`. -/

/-- Embedding of `functional.angle`: `torch.atan2(imag, real)`, the argument
of the complex number `re + im*I`, in `(-π, π]` with `angle (0, 0) = 0`. -/
noncomputable def angle (p : ℝ × ℝ) : ℝ := Complex.arg ⟨p.1, p.2⟩

/-- Embedding of `torch.norm(·, 2, -1)` over the trailing (real, imaginary)
pair (`functional.complex_norm` with `power = 1`, as used in
`phase_vocoder`). -/
noncomputable def complex_norm (p : ℝ × ℝ) : ℝ := Real.sqrt (p.1 ^ 2 + p.2 ^ 2)

/-- Embedding of `torch.round`: round to nearest, ties to even. -/
noncomputable def torch_round (x : ℝ) : ℤ :=
  if Int.fract x = 1 / 2 then 2 * round (x / 2) else round x

/-- `alphas = time_steps % 1`: the fractional part of the synthetic index. -/
def alphas (rate : ℚ) (k : ℕ) : ℚ := Int.fract (timeStep rate k)

/-- `time_steps.long()`: truncation toward zero, which for the non-negative
synthetic indices is the floor. -/
def pv_index (rate : ℚ) (k : ℕ) : ℕ := (⌊timeStep rate k⌋).toNat

/-- `torch.nn.functional.pad(spect, [0, 0, 0, 2, 0, ...])`: two all-zero
frames appended at the end of the time axis (indices at or beyond
`num_frames` read zero; the body only ever reads indices below
`num_frames + 2`). -/
def pad_time (x : ℕ → ℝ × ℝ) (num_frames : ℕ) : ℕ → ℝ × ℝ :=
  fun i => if i < num_frames then x i else (0, 0)

/-- `spect_0 = spect[:, :, :, time_steps.long()]` after padding. -/
def spect_0 (x : ℕ → ℝ × ℝ) (num_frames : ℕ) (rate : ℚ) (k : ℕ) : ℝ × ℝ :=
  pad_time x num_frames (pv_index rate k)

/-- `spect_1 = spect[:, :, :, (time_steps + 1).long()]` after padding. -/
def spect_1 (x : ℕ → ℝ × ℝ) (num_frames : ℕ) (rate : ℚ) (k : ℕ) : ℝ × ℝ :=
  pad_time x num_frames (pv_index rate k + 1)

/-- `spect_phase` after the unwrapping step: the raw phase difference
`angle(spect_1) - angle(spect_0) - phi_advance`, minus `2π` times its
rounded multiple of `2π`. -/
noncomputable def spect_phase (x : ℕ → ℝ × ℝ) (num_frames : ℕ) (rate : ℚ)
    (φ : ℝ) (k : ℕ) : ℝ :=
  let d := angle (spect_1 x num_frames rate k) -
    angle (spect_0 x num_frames rate k) - φ
  d - 2 * π * torch_round (d / (2 * π))

/-- `phase = spect_phase + phi_advance`: the per-frame instantaneous phase
increment. -/
noncomputable def pv_phase (x : ℕ → ℝ × ℝ) (num_frames : ℕ) (rate : ℚ)
    (φ : ℝ) (k : ℕ) : ℝ :=
  spect_phase x num_frames rate φ k + φ

/-- `phase = torch.cat([phase_0, phase[:, :, :, :-1]], dim=-1)`: entry 0 is
the angle of (unpadded) input frame 0; entry `k + 1` is the increment of
output frame `k` (the final increment is dropped by the `[:-1]` slice). -/
noncomputable def pv_phase_cat (x : ℕ → ℝ × ℝ) (num_frames : ℕ) (rate : ℚ)
    (φ : ℝ) : ℕ → ℝ
  | 0 => angle (x 0)
  | k + 1 => pv_phase x num_frames rate φ k

/-- `phase_acc = torch.cumsum(phase, -1)`: the accumulated phase
trajectory. -/
noncomputable def pv_phase_acc (x : ℕ → ℝ × ℝ) (num_frames : ℕ) (rate : ℚ)
    (φ : ℝ) (k : ℕ) : ℝ :=
  ∑ j in Finset.range (k + 1), pv_phase_cat x num_frames rate φ j

/-- `mag = alphas * spect_1_norm + (1 - alphas) * spect_0_norm`. -/
noncomputable def pv_mag (x : ℕ → ℝ × ℝ) (num_frames : ℕ) (rate : ℚ)
    (k : ℕ) : ℝ :=
  (alphas rate k : ℝ) * complex_norm (spect_1 x num_frames rate k) +
    (1 - (alphas rate k : ℝ)) * complex_norm (spect_0 x num_frames rate k)

/-- Output frame `k` at one `(batch, channel, bin)` element:
`(mag * cos(phase_acc), mag * sin(phase_acc))`. -/
noncomputable def pv_elem (x : ℕ → ℝ × ℝ) (num_frames : ℕ) (rate : ℚ)
    (φ : ℝ) (k : ℕ) : ℝ × ℝ :=
  (pv_mag x num_frames rate k * Real.cos (pv_phase_acc x num_frames rate φ k),
    pv_mag x num_frames rate k * Real.sin (pv_phase_acc x num_frames rate φ k))

/-- Embedding of `functional.phase_vocoder`: all tensor operations of the
body are elementwise over `(batch, channel, bin)` with the `(num_bins, 1)`
table `phi_advance` broadcast along its bin axis, so the output at
`(b, c, f)` and output frame `k < pvNumFrames num_frames rate` is
`pv_elem` of the time series at `(b, c, f)`. -/
noncomputable def phase_vocoder {B C NB : ℕ}
    (spect : Fin B → Fin C → Fin NB → ℕ → ℝ × ℝ) (num_frames : ℕ)
    (rate : ℚ) (phi_table : Fin NB → ℝ) :
    Fin B → Fin C → Fin NB → ℕ → ℝ × ℝ :=
  fun b c f => pv_elem (spect b c f) num_frames rate (phi_table f)

/-! Polar-coordinate facts about `angle` and `complex_norm`. -/

lemma complex_norm_pair (a b : ℝ) :
    complex_norm (a, b) = Real.sqrt (a ^ 2 + b ^ 2) := rfl

lemma complex_norm_nonneg (p : ℝ × ℝ) : 0 ≤ complex_norm p :=
  Real.sqrt_nonneg _

lemma complex_norm_eq_abs (p : ℝ × ℝ) :
    complex_norm p = Complex.abs ⟨p.1, p.2⟩ := by
  rw [Complex.abs_apply, Complex.normSq_apply]
  show Real.sqrt (p.1 ^ 2 + p.2 ^ 2) = _
  congr 1
  ring

lemma complex_norm_mul_cos (p : ℝ × ℝ) :
    complex_norm p * Real.cos (angle p) = p.1 := by
  rw [complex_norm_eq_abs]
  exact Complex.abs_mul_cos_arg ⟨p.1, p.2⟩

lemma complex_norm_mul_sin (p : ℝ × ℝ) :
    complex_norm p * Real.sin (angle p) = p.2 := by
  rw [complex_norm_eq_abs]
  exact Complex.abs_mul_sin_arg ⟨p.1, p.2⟩

lemma complex_norm_polar (m θ : ℝ) (hm : 0 ≤ m) :
    complex_norm (m * Real.cos θ, m * Real.sin θ) = m := by
  rw [complex_norm_pair]
  have h : (m * Real.cos θ) ^ 2 + (m * Real.sin θ) ^ 2 = m ^ 2 := by
    have hs := Real.sin_sq_add_cos_sq θ
    nlinarith [hs]
  rw [h]
  exact Real.sqrt_sq hm

lemma alphas_nonneg (rate : ℚ) (k : ℕ) : 0 ≤ alphas rate k :=
  Int.fract_nonneg _

lemma alphas_lt_one (rate : ℚ) (k : ℕ) : alphas rate k < 1 :=
  Int.fract_lt_one _

lemma pv_mag_nonneg (x : ℕ → ℝ × ℝ) (num_frames : ℕ) (rate : ℚ) (k : ℕ) :
    0 ≤ pv_mag x num_frames rate k := by
  have h0 : (0 : ℝ) ≤ ((alphas rate k : ℚ) : ℝ) := by
    exact_mod_cast alphas_nonneg rate k
  have h1 : ((alphas rate k : ℚ) : ℝ) ≤ 1 := by
    exact_mod_cast (alphas_lt_one rate k).le
  exact add_nonneg (mul_nonneg h0 (complex_norm_nonneg _))
    (mul_nonneg (by linarith) (complex_norm_nonneg _))

/-- C10: every output element of `phase_vocoder` has Euclidean norm over its
trailing (real, imaginary) pair equal to the interpolated magnitude
`alphas * ‖spect_1‖ + (1 - alphas) * ‖spect_0‖` of the two bracketing
(zero-padded) input frames; in particular every output magnitude is
non-negative, and it is independent of the accumulated phase trajectory (the
norm is unchanged under any other phase-advance table). -/
theorem pv_output_norm {B C NB : ℕ}
    (spect : Fin B → Fin C → Fin NB → ℕ → ℝ × ℝ) (num_frames : ℕ)
    (rate : ℚ) (hrate : 0 < rate) (tab tab2 : Fin NB → ℝ)
    (b : Fin B) (c : Fin C) (f : Fin NB) (k : ℕ) :
    complex_norm (phase_vocoder spect num_frames rate tab b c f k) =
        (alphas rate k : ℝ) *
            complex_norm (spect_1 (spect b c f) num_frames rate k) +
          (1 - (alphas rate k : ℝ)) *
            complex_norm (spect_0 (spect b c f) num_frames rate k) ∧
      0 ≤ complex_norm (phase_vocoder spect num_frames rate tab b c f k) ∧
      complex_norm (phase_vocoder spect num_frames rate tab b c f k) =
        complex_norm (phase_vocoder spect num_frames rate tab2 b c f k) := by
  have key : ∀ t : Fin NB → ℝ,
      complex_norm (phase_vocoder spect num_frames rate t b c f k) =
        pv_mag (spect b c f) num_frames rate k := by
    intro t
    unfold phase_vocoder pv_elem
    exact complex_norm_polar _ _ (pv_mag_nonneg _ _ _ _)
  refine ⟨?_, ?_, ?_⟩
  · rw [key tab]
    rfl
  · rw [key tab]
    exact pv_mag_nonneg _ _ _ _
  · rw [key tab, key tab2]

/-- Witness for C10 at a one-element spectrogram with a single frame and
`rate = 1`. -/
theorem pv_output_norm_witness :
    (0 : ℚ) < 1 ∧
      0 ≤ complex_norm (phase_vocoder
        ((fun _ _ _ _ => ((3 : ℝ), (4 : ℝ))) :
          Fin 1 → Fin 1 → Fin 1 → ℕ → ℝ × ℝ) 1 1 (fun _ => 0) 0 0 0 0) :=
  ⟨by norm_num,
    (pv_output_norm ((fun _ _ _ _ => ((3 : ℝ), (4 : ℝ))) :
        Fin 1 → Fin 1 → Fin 1 → ℕ → ℝ × ℝ) 1 1 (by norm_num)
      (fun _ => 0) (fun _ => 0) 0 0 0 0).2.1⟩

/-! Behaviour of the phase vocoder at `rate = 1`. -/

lemma timeStep_one (k : ℕ) : timeStep 1 k = (k : ℚ) := by
  simp [timeStep]

lemma pv_index_one (k : ℕ) : pv_index 1 k = k := by
  simp [pv_index, timeStep]

lemma alphas_one (k : ℕ) : alphas 1 k = 0 := by
  simp [alphas, timeStep]

lemma spect_0_one (x : ℕ → ℝ × ℝ) (num_frames k : ℕ) (hk : k < num_frames) :
    spect_0 x num_frames 1 k = x k := by
  simp [spect_0, pad_time, pv_index_one, hk]

lemma spect_1_one (x : ℕ → ℝ × ℝ) (num_frames k : ℕ)
    (hk : k + 1 < num_frames) :
    spect_1 x num_frames 1 k = x (k + 1) := by
  simp [spect_1, pad_time, pv_index_one, hk]

lemma pv_mag_one (x : ℕ → ℝ × ℝ) (num_frames k : ℕ) (hk : k < num_frames) :
    pv_mag x num_frames 1 k = complex_norm (x k) := by
  rw [pv_mag, alphas_one, spect_0_one x num_frames k hk]
  push_cast
  ring

lemma torch_round_intCast (n : ℤ) : torch_round (n : ℝ) = n := by
  rw [torch_round, Int.fract_intCast]
  norm_num

lemma spect_phase_one (x : ℕ → ℝ × ℝ) (num_frames : ℕ) (φ : ℝ) (n : ℤ)
    (k : ℕ) (hk : k + 1 < num_frames)
    (hadv : angle (x (k + 1)) - angle (x k) - φ = 2 * π * n) :
    spect_phase x num_frames 1 φ k = 0 := by
  rw [spect_phase]
  simp only [spect_1_one x num_frames k hk,
    spect_0_one x num_frames k (Nat.lt_of_succ_lt hk), hadv]
  have h2π : (2 : ℝ) * π ≠ 0 := by positivity
  have hdiv : 2 * π * (n : ℝ) / (2 * π) = (n : ℝ) := by
    field_simp
  rw [hdiv, torch_round_intCast]
  ring

lemma pv_phase_one (x : ℕ → ℝ × ℝ) (num_frames : ℕ) (φ : ℝ) (n : ℤ)
    (k : ℕ) (hk : k + 1 < num_frames)
    (hadv : angle (x (k + 1)) - angle (x k) - φ = 2 * π * n) :
    pv_phase x num_frames 1 φ k = φ := by
  rw [pv_phase, spect_phase_one x num_frames φ n k hk hadv]
  ring

lemma pv_phase_acc_one (x : ℕ → ℝ × ℝ) (num_frames : ℕ) (φ : ℝ)
    (m : ℕ → ℤ)
    (hadv : ∀ j, j + 1 < num_frames →
      angle (x (j + 1)) - angle (x j) - φ = 2 * π * m j)
    (k : ℕ) (hk : k < num_frames) :
    pv_phase_acc x num_frames 1 φ k = angle (x 0) + k * φ := by
  rw [pv_phase_acc, Finset.sum_range_succ']
  have hfirst : pv_phase_cat x num_frames 1 φ 0 = angle (x 0) := rfl
  have hstep : ∀ j ∈ Finset.range k,
      pv_phase_cat x num_frames 1 φ (j + 1) = φ := by
    intro j hj
    rw [Finset.mem_range] at hj
    exact pv_phase_one x num_frames φ (m j) j (by omega) (hadv j (by omega))
  rw [hfirst, Finset.sum_congr rfl hstep, Finset.sum_const, Finset.card_range,
    nsmul_eq_mul]
  ring

lemma angle_telescope (x : ℕ → ℝ × ℝ) (num_frames : ℕ) (φ : ℝ) (m : ℕ → ℤ)
    (hadv : ∀ j, j + 1 < num_frames →
      angle (x (j + 1)) - angle (x j) - φ = 2 * π * m j)
    (k : ℕ) :
    k < num_frames →
      angle (x k) = angle (x 0) + k * φ +
        2 * π * ((∑ j in Finset.range k, m j : ℤ) : ℝ) := by
  induction k with
  | zero =>
    intro _
    simp
  | succ n ih =>
    intro hk
    have h := hadv n hk
    have ihh := ih (by omega)
    rw [Finset.sum_range_succ]
    push_cast
    push_cast at ihh
    linear_combination h + ihh

lemma pv_elem_rate_one (x : ℕ → ℝ × ℝ) (num_frames : ℕ) (φ : ℝ) (m : ℕ → ℤ)
    (hadv : ∀ j, j + 1 < num_frames →
      angle (x (j + 1)) - angle (x j) - φ = 2 * π * m j)
    (k : ℕ) (hk : k < num_frames) :
    pv_elem x num_frames 1 φ k = x k := by
  have hacc : pv_phase_acc x num_frames 1 φ k =
      angle (x k) + ((-(∑ j in Finset.range k, m j) : ℤ) : ℝ) * (2 * π) := by
    have ht := angle_telescope x num_frames φ m hadv k hk
    rw [pv_phase_acc_one x num_frames φ m hadv k hk]
    push_cast
    push_cast at ht
    linear_combination -ht
  rw [pv_elem, hacc, Real.cos_add_int_mul_two_pi, Real.sin_add_int_mul_two_pi,
    pv_mag_one x num_frames k hk, complex_norm_mul_cos, complex_norm_mul_sin]

/-- C6: at `rate = 1`, `phase_vocoder` keeps the frame count, and on any
input whose per-bin, per-hop phase advance `angle(frame j+1) -
angle(frame j)` equals the phase-advance table entry (up to the inherent
`2π` ambiguity of phases, witnessed by the integers `m`), every output frame
equals the corresponding input frame exactly — magnitudes and phases are
reproduced unchanged. -/
theorem pv_rate_one_identity {B C NB : ℕ}
    (spect : Fin B → Fin C → Fin NB → ℕ → ℝ × ℝ) (num_frames : ℕ)
    (tab : Fin NB → ℝ) (m : Fin B → Fin C → Fin NB → ℕ → ℤ)
    (hN : 1 ≤ num_frames)
    (hadv : ∀ b c f j, j + 1 < num_frames →
      angle (spect b c f (j + 1)) - angle (spect b c f j) - tab f =
        2 * π * m b c f j) :
    pvNumFrames num_frames 1 = num_frames ∧
      ∀ b c f k, k < num_frames →
        phase_vocoder spect num_frames 1 tab b c f k = spect b c f k := by
  constructor
  · simp [pvNumFrames, arangeLen]
  · intro b c f k hk
    exact pv_elem_rate_one (spect b c f) num_frames (tab f) (m b c f)
      (hadv b c f) k hk

/-- Witness for C6: a constant one-bin spectrogram with two frames, unit
real value and zero phase-advance table; its phase advance per hop is 0, it
satisfies the hypothesis with all `m = 0`, and the theorem returns frame 0
unchanged. -/
theorem pv_rate_one_identity_witness :
    1 ≤ 2 ∧
      phase_vocoder ((fun _ _ _ _ => ((1 : ℝ), (0 : ℝ))) :
          Fin 1 → Fin 1 → Fin 1 → ℕ → ℝ × ℝ) 2 1 (fun _ => 0) 0 0 0 0 =
        ((1 : ℝ), (0 : ℝ)) := by
  have hadv : ∀ (b c f : Fin 1) (j : ℕ), j + 1 < 2 →
      angle ((1 : ℝ), (0 : ℝ)) - angle ((1 : ℝ), (0 : ℝ)) - (0 : ℝ) =
        2 * π * ((0 : ℤ) : ℝ) := by
    intro b c f j hj
    simp
  exact ⟨by norm_num,
    (pv_rate_one_identity ((fun _ _ _ _ => ((1 : ℝ), (0 : ℝ))) :
        Fin 1 → Fin 1 → Fin 1 → ℕ → ℝ × ℝ) 2 (fun _ => 0) (fun _ _ _ _ => 0)
      (by norm_num) hadv).2 0 0 0 0 (by norm_num)⟩

end TorchaudioContrib
